import Mathlib

/-!
Verification of the nabt-app hybrid product extraction and classification
pipeline.

Shallow embedding of the core pipeline:
  - backend/services/extractor/patterns.py   (ExtractionPatterns)
  - backend/services/extractor/cleaners.py   (ProductNameCleaner, OriginExtractor, UnitExtractor)
  - backend/services/classifier/categories.py (ProductCategory, get_category_keywords)
  - src/services/classifier/product_classifier.py (RuleBasedClassifier, HybridProductClassifier)
  - src/services/extractor/product_extractor.py   (HybridProductExtractor)

Modelling conventions:
  - Python strings are modelled as List Char; all strings occurring in the
    pipeline data are ASCII, so Char.toLower/Char.isAlphanum model
    str.lower / the regex word-character class faithfully.
  - Python floats are modelled as rationals.  Every float produced by the
    pipeline (keyword scores, confidences, parsed prices) is an exact
    decimal, so no rounding behaviour is lost.
  - The external text-generation collaborator (LLM) is an injected
    capability; its calls are modelled as a function returning Except Unit
    (an exception or a completion), exactly the interface the orchestrator
    consumes.
  - The regular expressions used by the code are alternations of literal
    words (built from keyword sets sorted longest-first) wrapped in word
    boundaries, plus one number+unit pattern.  They are modelled by direct
    leftmost-scan matchers; the source patterns contain no constructs
    beyond literal alternation, greedy digit/space repetition and word
    boundaries, and for word-bounded alternations of all-word-character
    literals at most one alternative can match at a given position, so the
    scan order is the only semantics that matters.
-/

set_option maxRecDepth 1000000

namespace NabtApp

/-! ## Python string primitives -/

/-- Characters treated as whitespace by Python str.split / str.strip and
by the regex class backslash-s. -/
def pyIsSpace (c : Char) : Bool :=
  c == ' ' || c == '\t' || c == '\n' || c == '\r' || c.val == 11 || c.val == 12

/-- The regex word-character class (ASCII): letters, digits, underscore. -/
def isWordChar (c : Char) : Bool :=
  c.isAlphanum || c == '_'

/-- str.lower (ASCII). -/
def toLowerList (s : List Char) : List Char :=
  s.map Char.toLower

/-- Convert a Lean string literal to the List Char representation. -/
def lc (s : String) : List Char :=
  s.toList

/-- str.lstrip. -/
def pyLStrip (s : List Char) : List Char :=
  s.dropWhile pyIsSpace

/-- str.strip. -/
def pyStrip (s : List Char) : List Char :=
  ((pyLStrip s).reverse.dropWhile pyIsSpace).reverse

/-- Worker for pySplit; acc holds the current (reversed) word. -/
def pySplitGo : List Char → List Char → List (List Char)
  | acc, [] => if acc.isEmpty then [] else [acc.reverse]
  | acc, c :: rest =>
    if pyIsSpace c then
      if acc.isEmpty then pySplitGo [] rest else acc.reverse :: pySplitGo [] rest
    else pySplitGo (c :: acc) rest

/-- str.split with no argument: split on whitespace runs, dropping empty pieces. -/
def pySplit (s : List Char) : List (List Char) :=
  pySplitGo [] s

/-- True iff the first list is an initial segment of the second. -/
def startsList : List Char → List Char → Bool
  | [], _ => true
  | _ :: _, [] => false
  | a :: as, b :: bs => (a == b) && startsList as bs

/-- Case-insensitive variant of startsList. -/
def ciStarts : List Char → List Char → Bool
  | [], _ => true
  | _ :: _, [] => false
  | a :: as, b :: bs => (a.toLower == b.toLower) && ciStarts as bs

/-- Python substring containment (the `in` operator on str). -/
def containsSub (n : List Char) : List Char → Bool
  | [] => n.isEmpty
  | c :: rest => startsList n (c :: rest) || containsSub n rest

/-- Worker for collapseSpaces; the flag records whether the previous
character was whitespace (part of the current run). -/
def collapseSpacesGo : Bool → List Char → List Char
  | _, [] => []
  | prevSpace, c :: rest =>
    if pyIsSpace c then
      if prevSpace then collapseSpacesGo true rest
      else ' ' :: collapseSpacesGo true rest
    else c :: collapseSpacesGo false rest

/-- re.sub of one-or-more-whitespace with a single space. -/
def collapseSpaces (s : List Char) : List Char :=
  collapseSpacesGo false s

/-- Worker for pyTitle; the flag records whether the previous character
was a letter. -/
def pyTitleGo : Bool → List Char → List Char
  | _, [] => []
  | prevAlpha, c :: rest =>
    (if c.isAlpha then (if prevAlpha then c.toLower else c.toUpper) else c)
      :: pyTitleGo c.isAlpha rest

/-- str.title (ASCII): uppercase a letter that follows a non-letter,
lowercase a letter that follows a letter. -/
def pyTitle (s : List Char) : List Char :=
  pyTitleGo false s

/-! ## Pattern registry (backend/services/extractor/patterns.py, ExtractionPatterns) -/

/-- Convert a list of string literals to List Char form. -/
def kws (l : List String) : List (List Char) :=
  l.map String.toList

/-- ExtractionPatterns.COUNTRIES (a set in the source; listed here in
source order — the set is only used for membership tests and for building
a length-sorted alternation, so the order carries no meaning). -/
def COUNTRIES : List (List Char) := kws
  ["local", "philippines", "egypt", "saudi", "saudi arabia", "china",
   "tunisia", "south africa", "spain", "tanzania", "italy", "usa",
   "united states", "brazil", "india", "turkey", "lebanon", "jordan",
   "morocco", "france", "germany", "netherlands", "uk", "uae", "qatar",
   "bahrain", "kuwait", "oman", "yemen", "pakistan", "bangladesh",
   "thailand", "vietnam", "malaysia", "indonesia", "australia"]

/-- ExtractionPatterns.UNIT_KEYWORDS. -/
def UNIT_KEYWORDS : List (List Char) := kws
  ["kg", "g", "gram", "grams", "kilogram", "kilograms",
   "lb", "pound", "pounds", "lbs", "oz", "ounce", "ounces",
   "liter", "l", "litre", "liters", "litres", "ml",
   "pkt", "packet", "packets", "bunch", "bunches",
   "box", "boxes", "bag", "bags", "piece", "pieces", "pcs",
   "dozen", "dozens", "bundle", "bundles", "head", "heads",
   "bottle", "bottles", "can", "cans", "tin", "tins",
   "jar", "jars", "tube", "tubes", "roll", "rolls",
   "sheet", "sheets", "slice", "slices", "pack", "packs",
   "tray", "unit", "units"]

/-- ExtractionPatterns.DESCRIPTIVE_WORDS. -/
def DESCRIPTIVE_WORDS : List (List Char) := kws
  ["farm", "fresh", "organic", "premium", "natural", "sustainable",
   "quality", "grade", "type", "variety", "brand", "deluxe",
   "luxury", "gourmet", "artisanal", "handcrafted", "homemade",
   "traditional", "authentic", "genuine", "pure",
   "small", "medium", "large", "extra", "super", "mega", "jumbo",
   "mini", "baby", "big", "thermo",
   "ripe", "raw", "cooked", "frozen", "dried", "freshly",
   "locally", "grown", "harvested", "picked", "selected",
   "red", "green", "yellow", "orange", "purple", "blue",
   "white", "black", "brown", "pink", "golden",
   "royal", "gala", "fuji", "granny", "smith", "honeycrisp",
   "delicious", "lady", "braeburn"]

/-- ExtractionPatterns.COMPLEXITY_KEYWORDS. -/
def COMPLEXITY_KEYWORDS : List (List Char) := kws
  ["organic", "premium", "fresh", "natural", "sustainable",
   "fair-trade", "quality", "grade", "type", "variety", "brand"]

/-- Insert one word into a list kept sorted by descending length. -/
def insertLenDesc (x : List Char) : List (List Char) → List (List Char)
  | [] => [x]
  | y :: ys => if y.length < x.length then x :: y :: ys else y :: insertLenDesc x ys

/-- sorted(words, key=len, reverse=True).  Python's sort on a set leaves
the order of equal-length words unspecified (hash order); that order is
irrelevant here because two distinct equal-length literals can never
match at the same position. -/
def sortLenDesc (l : List (List Char)) : List (List Char) :=
  l.foldr insertLenDesc []

/-- The alternation built by ExtractionPatterns.get_country_pattern. -/
def get_country_alternation : List (List Char) :=
  sortLenDesc COUNTRIES

/-- The unit-keyword alternation inside ExtractionPatterns.get_unit_pattern. -/
def get_unit_alternation : List (List Char) :=
  sortLenDesc UNIT_KEYWORDS

/-- The alternation built by ExtractionPatterns.get_descriptive_pattern. -/
def get_descriptive_alternation : List (List Char) :=
  sortLenDesc DESCRIPTIVE_WORDS

/-! ## Word-bounded literal-alternation regex model

The source compiles patterns of the form
boundary (w1 | w2 | ... | wn) boundary
(re.IGNORECASE) and uses re.search / re.sub on them.  All alternatives
are nonempty strings of word characters (letters, digits, spaces inside
multi-word countries/units — with boundaries only at the outer ends), so
a match at a position is: the alternative is a case-insensitive prefix
of the text there, the preceding character (if any) is not a word
character, and the following character (if any) is not a word character.
re.search returns the leftmost match; re.sub replaces every
non-overlapping match, scanning left to right. -/

/-- Word boundary before the match: start of text or a non-word character. -/
def boundaryOkBefore : Option Char → Bool
  | none => true
  | some c => !isWordChar c

/-- Word boundary after a candidate match of a at the head of s. -/
def boundaryAfterOk (a s : List Char) : Bool :=
  match s.drop a.length with
  | [] => true
  | c :: _ => !isWordChar c

/-- First alternative (in list order) matching at the head of s with a
word boundary after it. -/
def altMatchAt (alts : List (List Char)) (s : List Char) : Option (List Char) :=
  alts.find? (fun a => !a.isEmpty && ciStarts a s && boundaryAfterOk a s)

/-- Worker for findBounded: scan left to right; prev is the character
just before the current position. -/
def findBoundedGo (alts : List (List Char)) : Option Char → List Char → Option (List Char)
  | _, [] => none
  | prev, c :: rest =>
    if boundaryOkBefore prev then
      match altMatchAt alts (c :: rest) with
      | some a => some ((c :: rest).take a.length)
      | none => findBoundedGo alts (some c) rest
    else findBoundedGo alts (some c) rest

/-- re.search for a word-bounded alternation of literals: returns the
matched text of the leftmost match. -/
def findBounded (alts : List (List Char)) (s : List Char) : Option (List Char) :=
  findBoundedGo alts none s

/-- Worker for subBounded.  A positive skip counter means we are inside a
match being deleted (skip characters remain). -/
def subBoundedGo (alts : List (List Char)) : Nat → Option Char → List Char → List Char
  | _, _, [] => []
  | skip + 1, _, c :: rest => subBoundedGo alts skip (some c) rest
  | 0, prev, c :: rest =>
    if boundaryOkBefore prev then
      match altMatchAt alts (c :: rest) with
      | some a => subBoundedGo alts (a.length - 1) (some c) rest
      | none => c :: subBoundedGo alts 0 (some c) rest
    else c :: subBoundedGo alts 0 (some c) rest

/-- re.sub of a word-bounded alternation of literals with the empty
string: delete every non-overlapping match, scanning left to right. -/
def subBounded (alts : List (List Char)) (s : List Char) : List Char :=
  subBoundedGo alts 0 none s

/-- Worker for subLiteralCI (plain substring replacement, no word
boundaries), same skip-counter scheme. -/
def subLiteralGo (needle : List Char) : Nat → List Char → List Char
  | _, [] => []
  | skip + 1, _ :: rest => subLiteralGo needle skip rest
  | 0, c :: rest =>
    if !needle.isEmpty && ciStarts needle (c :: rest) then
      subLiteralGo needle (needle.length - 1) rest
    else c :: subLiteralGo needle 0 rest

/-- re.sub(re.escape(needle), empty, s, flags=IGNORECASE): delete every
non-overlapping case-insensitive occurrence of the literal needle. -/
def subLiteralCI (needle : List Char) (s : List Char) : List Char :=
  subLiteralGo needle 0 s

/-! ## OriginExtractor (backend/services/extractor/cleaners.py) -/

/-- OriginExtractor.extract_origin: search the lowercased name with the
country pattern; title-case the match; canonicalize "local" to "Saudi". -/
def extract_origin (name : List Char) : Option (List Char) :=
  match findBounded get_country_alternation (toLowerList name) with
  | some m =>
    let origin := pyTitle m
    if toLowerList origin == lc "local" then some (lc "Saudi") else some origin
  | none => none

/-! ## UnitExtractor (backend/services/extractor/cleaners.py) -/

/-- The compound-unit alternation from UnitExtractor.compound_units, in
pattern order. -/
def COMPOUND_UNITS : List (List Char) := kws
  ["small box", "medium box", "large box", "small bag", "medium bag",
   "large bag", "big bag", "thermo box", "tray pack", "family pack"]

/-- One attempt of the number+unit pattern of
ExtractionPatterns.get_unit_pattern at the head of s:
digits, an optional dot-digits fraction, optional whitespace, then a
unit keyword with a word boundary after it.  The digit, fraction and
whitespace repetitions are greedy; backtracking them can never produce a
match here (after a shortened repetition the next character is a digit
or a dot, which no unit keyword or whitespace can consume), so the
greedy parse is complete. -/
def unitMatchAt (units : List (List Char)) (s : List Char) : Option (List Char) :=
  let ds := s.takeWhile Char.isDigit
  if ds.isEmpty then none
  else
    let r1 := s.drop ds.length
    let frac : List Char :=
      match r1 with
      | '.' :: r =>
        let fs := r.takeWhile Char.isDigit
        if fs.isEmpty then [] else '.' :: fs
      | _ => []
    let r2 := r1.drop frac.length
    let sp := r2.takeWhile pyIsSpace
    let r3 := r2.drop sp.length
    match units.find? (fun u => !u.isEmpty && ciStarts u r3 && boundaryAfterOk u r3) with
    | some u => some (ds ++ frac ++ sp ++ r3.take u.length)
    | none => none

/-- Worker for findUnitPattern: leftmost scan. -/
def findUnitGo (units : List (List Char)) : Option Char → List Char → Option (List Char)
  | _, [] => none
  | prev, c :: rest =>
    if boundaryOkBefore prev then
      match unitMatchAt units (c :: rest) with
      | some m => some m
      | none => findUnitGo units (some c) rest
    else findUnitGo units (some c) rest

/-- re.search of the number+unit pattern: matched text of the leftmost
match. -/
def findUnitPattern (units : List (List Char)) (s : List Char) : Option (List Char) :=
  findUnitGo units none s

/-- UnitExtractor.extract_unit: compound units first, then the generic
number+unit pattern, else the literal default. -/
def extract_unit (name : List Char) : List Char :=
  match findBounded COMPOUND_UNITS (toLowerList name) with
  | some m => pyStrip m
  | none =>
    match findUnitPattern get_unit_alternation (toLowerList name) with
    | some m => pyStrip m
    | none => lc "1 piece"

/-! ## ProductNameCleaner (backend/services/extractor/cleaners.py) -/

/-- Steps 1-4 of ProductNameCleaner.clean_product_name: remove the origin
(word-bounded), remove the unit substring (when present and not the
default), remove all descriptive words (word-bounded), collapse
whitespace and strip.  Python truthiness: an empty origin/unit string
skips its removal step. -/
def cleaned_core (name : List Char) (origin : Option (List Char)) (unit : Option (List Char)) : List Char :=
  let clean1 :=
    match origin with
    | some o => if o.isEmpty then name else subBounded [o] name
    | none => name
  let clean2 :=
    match unit with
    | some u => if !u.isEmpty && u != lc "1 piece" then subLiteralCI u clean1 else clean1
    | none => clean1
  let clean3 := subBounded get_descriptive_alternation clean2
  pyStrip (collapseSpaces clean3)

/-- ProductNameCleaner._extract_core_product_word: scan the original
name's words from the end backwards for the first word whose lowercase
form, stripped of non-word characters, is longer than 2 characters and
is not a unit keyword, descriptive word or country; otherwise fall back
to the stripped original name. -/
def extract_core_product_word (name : List Char) : List Char :=
  let words := pySplit name
  let exclude_words := UNIT_KEYWORDS ++ DESCRIPTIVE_WORDS ++ COUNTRIES
  match words.reverse.find? (fun w =>
      let word_clean := (toLowerList w).filter isWordChar
      decide (2 < word_clean.length) && !(exclude_words.contains word_clean)) with
  | some w => w
  | none => pyStrip name

/-- ProductNameCleaner.clean_product_name. -/
def clean_product_name (name : List Char) (origin : Option (List Char)) (unit : Option (List Char)) : List Char :=
  let clean_name := cleaned_core name origin unit
  if clean_name.length < 2 then extract_core_product_word name else clean_name

/-! ## Price parsing (HybridProductExtractor._extract_price) -/

/-- The cleaning step of _extract_price: drop every character that is
not a digit, dot or comma, then turn commas into dots. -/
def price_cleaned (price_str : List Char) : List Char :=
  (price_str.filter (fun c => c.isDigit || c == '.' || c == ',')).map
    (fun c => if c == ',' then '.' else c)

/-- Worker for splitOnDot. -/
def splitOnDotGo : List Char → List Char → List (List Char)
  | acc, [] => [acc.reverse]
  | acc, c :: rest =>
    if c == '.' then acc.reverse :: splitOnDotGo [] rest
    else splitOnDotGo (c :: acc) rest

/-- Split a string at every dot, keeping empty pieces. -/
def splitOnDot (s : List Char) : List (List Char) :=
  splitOnDotGo [] s

/-- Numeric value of a digit string. -/
def digitsToNat (l : List Char) : Nat :=
  l.foldl (fun n c => n * 10 + (c.toNat - Char.toNat '0')) 0

/-- Python float() restricted to its reachable inputs here: after
price_cleaned the string contains only digits and dots.  float accepts
at most one dot and at least one digit ("5.", ".5", "12" parse; "", ".",
"1.2.3" raise ValueError).  Any other character means the input was not
produced by price_cleaned; we conservatively report a parse failure. -/
def pyFloatOfDigits (s : List Char) : Option ℚ :=
  if s.all (fun c => c.isDigit || c == '.') then
    match splitOnDot s with
    | [ip] => if ip.isEmpty then none else some ((digitsToNat ip : ℚ))
    | [ip, fp] =>
      if ip.isEmpty && fp.isEmpty then none
      else some ((digitsToNat ip : ℚ) + (digitsToNat fp : ℚ) / (10 : ℚ) ^ fp.length)
    | _ => none
  else none

/-- HybridProductExtractor._extract_price: clean, parse, default to 0.0
on ValueError. -/
def extract_price (price_str : List Char) : ℚ :=
  match pyFloatOfDigits (price_cleaned price_str) with
  | some v => v
  | none => 0

/-! ## Complexity heuristic (HybridProductExtractor._is_complex_product_name) -/

/-- HybridProductExtractor._is_complex_product_name: any of four
independent signals. -/
def is_complex_product_name (name : List Char) : Bool :=
  decide (5 < (pySplit name).length)
  || COMPLEXITY_KEYWORDS.any (fun k => containsSub k (toLowerList name))
  || ([ '-', '/', '&', '(', ')'] : List Char).any (fun c => name.contains c)
  || decide (50 < name.length)

/-! ## Taxonomy (backend/services/classifier/categories.py) -/

/-- The closed category enumeration (16 labels). -/
inductive ProductCategory where
  | FRUITS | VEGETABLES | HERBS | GRAINS | LEGUMES | NUTS | SPICES | DAIRY
  | MEAT | SEAFOOD | BEVERAGES | SNACKS | BAKERY | FROZEN | CANNED | OTHER
deriving DecidableEq

/-- The string value of each enum member. -/
def ProductCategory.value : ProductCategory → List Char
  | .FRUITS => lc "Fruits"
  | .VEGETABLES => lc "Vegetables"
  | .HERBS => lc "Herbs"
  | .GRAINS => lc "Grains"
  | .LEGUMES => lc "Legumes"
  | .NUTS => lc "Nuts"
  | .SPICES => lc "Spices"
  | .DAIRY => lc "Dairy"
  | .MEAT => lc "Meat"
  | .SEAFOOD => lc "Seafood"
  | .BEVERAGES => lc "Beverages"
  | .SNACKS => lc "Snacks"
  | .BAKERY => lc "Bakery"
  | .FROZEN => lc "Frozen"
  | .CANNED => lc "Canned"
  | .OTHER => lc "Other"

/-- All members, in declaration order. -/
def allCategories : List ProductCategory :=
  [.FRUITS, .VEGETABLES, .HERBS, .GRAINS, .LEGUMES, .NUTS, .SPICES, .DAIRY,
   .MEAT, .SEAFOOD, .BEVERAGES, .SNACKS, .BAKERY, .FROZEN, .CANNED, .OTHER]

/-- get_category_keywords, FRUITS entry. -/
def FRUITS_KEYWORDS : List (List Char) := kws
  ["apple", "banana", "orange", "grape", "strawberry", "blueberry", "raspberry",
   "cherry", "peach", "pear", "plum", "mango", "pineapple", "watermelon",
   "lemon", "lime", "grapefruit", "pomegranate", "kiwi", "papaya", "avocado",
   "fig", "date", "coconut", "passion fruit", "dragon fruit", "lychee",
   "tamarind", "jujube", "loquat", "quince", "medlar",
   "gala", "fuji", "granny smith", "honeycrisp", "red delicious", "golden delicious",
   "pink lady", "braeburn", "jonagold", "empire", "cortland", "macintosh",
   "valencia", "navel", "blood orange", "mandarin", "clementine", "tangerine"]

/-- get_category_keywords, VEGETABLES entry. -/
def VEGETABLES_KEYWORDS : List (List Char) := kws
  ["tomato", "potato", "carrot", "onion", "garlic", "pepper", "cucumber",
   "lettuce", "spinach", "kale", "cabbage", "broccoli", "cauliflower",
   "asparagus", "celery", "radish", "beet", "turnip", "leek", "scallion",
   "ginger", "turmeric", "squash", "pumpkin", "eggplant", "corn",
   "green bean", "snap bean", "peas", "artichoke", "okra", "jicama",
   "brussels sprouts", "kohlrabi", "daikon", "horseradish", "wasabi",
   "bamboo shoots", "water chestnut"]

/-- get_category_keywords, HERBS entry. -/
def HERBS_KEYWORDS : List (List Char) := kws
  ["basil", "oregano", "thyme", "rosemary", "sage", "parsley", "cilantro",
   "dill", "mint", "chives", "tarragon", "marjoram", "bay leaves",
   "curry leaves", "lemongrass", "lavender", "chamomile", "fennel seeds",
   "caraway", "anise", "chervil", "borage", "sorrel", "watercress",
   "arugula", "mizuna", "tatsoi", "mitsuba", "shiso", "perilla"]

/-- get_category_keywords, GRAINS entry. -/
def GRAINS_KEYWORDS : List (List Char) := kws
  ["rice", "wheat", "barley", "oats", "quinoa", "buckwheat", "millet",
   "rye", "corn", "sorghum", "amaranth", "teff", "bulgur", "couscous",
   "farro", "spelt", "kamut", "freekeh", "wild rice", "brown rice",
   "white rice", "jasmine rice", "basmati rice", "arborio rice"]

/-- get_category_keywords, LEGUMES entry. -/
def LEGUMES_KEYWORDS : List (List Char) := kws
  ["beans", "lentils", "chickpeas", "peas", "soybeans", "black beans",
   "kidney beans", "pinto beans", "navy beans", "lima beans", "fava beans",
   "split peas", "black-eyed peas", "adzuki beans", "mung beans",
   "cannellini beans", "garbanzo beans", "red lentils", "green lentils",
   "brown lentils", "yellow lentils", "black lentils", "beluga lentils"]

/-- get_category_keywords, NUTS entry. -/
def NUTS_KEYWORDS : List (List Char) := kws
  ["almonds", "walnuts", "pecans", "cashews", "pistachios", "hazelnuts",
   "macadamia", "brazil nuts", "pine nuts", "pumpkin seeds", "sunflower seeds",
   "sesame seeds", "chia seeds", "flax seeds", "hemp seeds", "peanuts",
   "chestnuts", "acorns", "pili nuts", "kukui nuts", "candlenuts"]

/-- get_category_keywords, SPICES entry. -/
def SPICES_KEYWORDS : List (List Char) := kws
  ["pepper", "salt", "cinnamon", "nutmeg", "cloves", "cardamom",
   "vanilla", "ginger", "turmeric", "cumin", "coriander", "paprika",
   "cayenne", "chili powder", "garlic powder", "onion powder",
   "allspice", "juniper berries", "saffron", "sumac", "zaatar",
   "harissa", "berbere", "ras el hanout", "garam masala", "curry powder"]

/-- get_category_keywords, DAIRY entry. -/
def DAIRY_KEYWORDS : List (List Char) := kws
  ["milk", "cheese", "yogurt", "butter", "cream", "sour cream",
   "buttermilk", "kefir", "cottage cheese", "ricotta", "mozzarella",
   "cheddar", "swiss", "parmesan", "feta", "goat cheese", "cream cheese",
   "mascarpone", "gouda", "brie", "camembert", "blue cheese"]

/-- get_category_keywords, MEAT entry. -/
def MEAT_KEYWORDS : List (List Char) := kws
  ["beef", "pork", "lamb", "chicken", "turkey", "duck", "veal",
   "bacon", "ham", "sausage", "chorizo", "salami", "pepperoni",
   "prosciutto", "pancetta", "guanciale", "liver", "kidney", "heart",
   "tongue", "oxtail", "ribs", "chops", "steak", "roast"]

/-- get_category_keywords, SEAFOOD entry. -/
def SEAFOOD_KEYWORDS : List (List Char) := kws
  ["fish", "salmon", "tuna", "cod", "halibut", "bass", "trout",
   "mackerel", "sardines", "anchovies", "shrimp", "prawns", "lobster",
   "crab", "scallops", "mussels", "clams", "oysters", "squid",
   "octopus", "cuttlefish", "eel", "caviar", "roe", "seaweed", "nori"]

/-- get_category_keywords, BEVERAGES entry. -/
def BEVERAGES_KEYWORDS : List (List Char) := kws
  ["juice", "soda", "water", "tea", "coffee", "milk", "smoothie",
   "shake", "wine", "beer", "lemonade", "iced tea", "energy drink",
   "sports drink", "coconut water", "kombucha"]

/-- get_category_keywords, SNACKS entry. -/
def SNACKS_KEYWORDS : List (List Char) := kws
  ["chips", "crackers", "nuts", "popcorn", "pretzels", "trail mix",
   "granola", "cookies", "biscuits", "candy", "chocolate", "gummies",
   "jerky", "dried fruit"]

/-- get_category_keywords, BAKERY entry. -/
def BAKERY_KEYWORDS : List (List Char) := kws
  ["bread", "rolls", "bagels", "croissants", "muffins", "scones",
   "cakes", "pies", "tarts", "pastries", "donuts", "cookies",
   "biscuits", "crackers"]

/-- get_category_keywords, FROZEN entry. -/
def FROZEN_KEYWORDS : List (List Char) := kws
  ["frozen vegetables", "frozen fruits", "frozen meals", "ice cream",
   "frozen yogurt", "frozen pizza", "frozen burritos", "frozen waffles",
   "frozen berries"]

/-- get_category_keywords, CANNED entry. -/
def CANNED_KEYWORDS : List (List Char) := kws
  ["canned vegetables", "canned fruits", "canned beans", "canned tomatoes",
   "canned soup", "canned fish", "canned meat", "preserves", "jams",
   "jellies"]

/-- get_category_keywords: the keyword table, in the dict's insertion
order (OTHER has no keywords and is not in the table). -/
def category_keywords : List (ProductCategory × List (List Char)) :=
  [(.FRUITS, FRUITS_KEYWORDS),
   (.VEGETABLES, VEGETABLES_KEYWORDS),
   (.HERBS, HERBS_KEYWORDS),
   (.GRAINS, GRAINS_KEYWORDS),
   (.LEGUMES, LEGUMES_KEYWORDS),
   (.NUTS, NUTS_KEYWORDS),
   (.SPICES, SPICES_KEYWORDS),
   (.DAIRY, DAIRY_KEYWORDS),
   (.MEAT, MEAT_KEYWORDS),
   (.SEAFOOD, SEAFOOD_KEYWORDS),
   (.BEVERAGES, BEVERAGES_KEYWORDS),
   (.SNACKS, SNACKS_KEYWORDS),
   (.BAKERY, BAKERY_KEYWORDS),
   (.FROZEN, FROZEN_KEYWORDS),
   (.CANNED, CANNED_KEYWORDS)]

/-! ## Rule-based classifier (src/services/classifier/product_classifier.py) -/

/-- A (category, confidence, method) triple. -/
structure ClassificationResult where
  category : List Char
  confidence : ℚ
  method : List Char
deriving DecidableEq

/-- One iteration of the keyword loop of
RuleBasedClassifier.classify_product: the weight contributed by one
keyword (0 when the keyword is not a substring of the name). -/
def keywordWeight (product_lower : List Char) (keyword : List Char) : ℚ :=
  if containsSub keyword product_lower then
    let weight : ℚ := (keyword.length : ℚ) * 2
    let weight := if containsSub (' ' :: (keyword ++ [' '])) (' ' :: (product_lower ++ [' '])) then weight * 2 else weight
    let weight := if startsList (keyword ++ [' ']) product_lower then weight * 1.5 else weight
    weight
  else 0

/-- The score accumulated over one category's keyword list. -/
def categoryScore (keywords : List (List Char)) (product_lower : List Char) : ℚ :=
  keywords.foldl (fun score k => score + keywordWeight product_lower k) 0

/-- max(category_scores, key=category_scores.get): Python's max keeps
the first maximal entry in iteration order, replacing the candidate only
on a strictly greater value. -/
def bestOf (e : ProductCategory × ℚ) (rest : List (ProductCategory × ℚ)) : ProductCategory × ℚ :=
  rest.foldl (fun b x => if b.2 < x.2 then x else b) e

/-- The confidence mapping block of RuleBasedClassifier.classify_product
(lines "Calculate confidence based on match quality"). -/
def confidence_for (best_score : ℚ) : ℚ :=
  if best_score ≥ 30 then 0.95
  else if best_score ≥ 20 then 0.85
  else if best_score ≥ 10 then 0.7
  else if best_score ≥ 5 then 0.5
  else 0.3

/-- max(category_scores.values()) over a nonempty score table. -/
def table_max (e : ProductCategory × ℚ) (rest : List (ProductCategory × ℚ)) : ℚ :=
  (rest.map Prod.snd).foldl max e.2

/-- The selection half of RuleBasedClassifier.classify_product, operating
on the computed score table: the zero/empty guard, the argmax, and the
confidence mapping. -/
def classify_scores : List (ProductCategory × ℚ) → ClassificationResult
  | [] => ClassificationResult.mk (lc "Other") 0 (lc "rule_based")
  | e :: rest =>
    if table_max e rest = 0 then
      ClassificationResult.mk (lc "Other") 0 (lc "rule_based")
    else
      let best := bestOf e rest
      ClassificationResult.mk best.1.value (confidence_for best.2) (lc "rule_based")

/-- str.lower().strip() applied to a product name, as in
classify_product. -/
def product_lower_of (product_name : List Char) : List Char :=
  pyStrip (toLowerList product_name)

/-- The score table built by the scoring loop of classify_product, in
dict insertion order. -/
def score_table (product_name : List Char) : List (ProductCategory × ℚ) :=
  category_keywords.map (fun p => (p.1, categoryScore p.2 (product_lower_of product_name)))

/-- RuleBasedClassifier.classify_product: build the score table, then
select the best category and its confidence. -/
def classify_product (product_name : List Char) : ClassificationResult :=
  classify_scores (score_table product_name)

/-- The winning (maximal) raw score for a name, as computed inside
classify_product; 0 when the score table is empty. -/
def winning_score (product_name : List Char) : ℚ :=
  match score_table product_name with
  | [] => 0
  | e :: rest => table_max e rest

/-! ## Hybrid classifier (src/services/classifier/product_classifier.py) -/

/-- ProductCategory(name): enum lookup by value; ValueError becomes none. -/
def parse_category (s : List Char) : Option ProductCategory :=
  allCategories.find? (fun c => decide (c.value = s))

/-- HybridProductClassifier._classify_with_llm, with the LLM response
(invoke followed by .content) supplied as an Except value: an exception
propagates, a completion is stripped and mapped through the taxonomy. -/
def classify_with_llm (response : Except Unit (List Char)) : Except Unit ClassificationResult :=
  match response with
  | .error e => .error e
  | .ok content =>
    let category_name := pyStrip content
    match parse_category category_name with
    | some category => .ok (ClassificationResult.mk category.value 0.9 (lc "llm"))
    | none => .ok (ClassificationResult.mk (lc "Other") 0.5 (lc "llm"))

/-- HybridProductClassifier.classify_product.  llm_available is the
capability flag resolved at construction; llm_response models the
external completion call on a given product name. -/
def hybrid_classify_product (llm_available : Bool)
    (llm_response : List Char → Except Unit (List Char))
    (product_name : List Char) : ClassificationResult :=
  let rule_result := classify_product product_name
  if rule_result.confidence > 0.85 then
    ClassificationResult.mk rule_result.category rule_result.confidence (lc "rule_based")
  else if llm_available && decide (rule_result.confidence ≤ 0.85) then
    match classify_with_llm (llm_response product_name) with
    | .ok llm_result => ClassificationResult.mk llm_result.category llm_result.confidence (lc "llm")
    | .error _ => ClassificationResult.mk rule_result.category rule_result.confidence (lc "rule_based")
  else ClassificationResult.mk rule_result.category rule_result.confidence (lc "rule_based")

/-! ## Hybrid extractor (src/services/extractor/product_extractor.py) -/

/-- A raw input record (name, price, source); the price field is the
string form of whatever was supplied. -/
structure RawData where
  name : List Char
  price : List Char
  source : List Char
deriving DecidableEq

/-- The Product model (backend/models/product.py). -/
structure Product where
  Original_name : List Char
  ProductName : List Char
  Unit : List Char
  Origin : Option (List Char)
  Brand : Option (List Char)
  Price : ℚ
  Currency : List Char
  Source : List Char
  Category : Option (List Char)
  Confidence : Option ℚ
  ClassificationMethod : Option (List Char)
deriving DecidableEq

/-- HybridProductExtractor._extract_with_regex: the deterministic
extraction engine. -/
def extract_with_regex (raw : RawData) : Product :=
  let name := raw.name
  let price := extract_price raw.price
  let origin := extract_origin name
  let unit := extract_unit name
  let product_name := clean_product_name name origin (some unit)
  Product.mk name product_name unit origin none price (lc "SAR") raw.source none none none

/-- HybridProductExtractor._extract_with_llm: attempt the generative
call (modelled as an injected fallible function); on any exception fall
back to the regex engine. -/
def extract_with_llm (call_llm : RawData → Except Unit Product) (raw : RawData) : Product :=
  match call_llm raw with
  | .ok p => p
  | .error _ => extract_with_regex raw

/-- HybridProductExtractor.extract_product_data: choose the extraction
path (generative only when the capability is available and the name is
complex), then classify the extracted product name and fill the
classification fields.  The classifier shares the extractor's capability
flag (both are built from the same credential). -/
def extract_product_data (llm_available : Bool)
    (call_llm : RawData → Except Unit Product)
    (llm_response : List Char → Except Unit (List Char))
    (raw : RawData) : Product :=
  let product_data :=
    if llm_available && is_complex_product_name raw.name then extract_with_llm call_llm raw
    else extract_with_regex raw
  let classification_result := hybrid_classify_product llm_available llm_response product_data.ProductName
  { product_data with
      Category := some classification_result.category,
      Confidence := some classification_result.confidence,
      ClassificationMethod := some classification_result.method }

/-! ## Helper lemmas about the string primitives -/

theorem startsList_refl_append (a t : List Char) : startsList a (a ++ t) = true := by
  induction a with
  | nil => simp [startsList]
  | cons c cs ih => simp [startsList, ih]

theorem startsList_refl (a : List Char) : startsList a a = true := by
  simpa using startsList_refl_append a []

theorem startsList_exists_append {a b : List Char} (h : startsList a b = true) :
    ∃ t, b = a ++ t := by
  induction a generalizing b with
  | nil => exact ⟨b, rfl⟩
  | cons c cs ih =>
    cases b with
    | nil => simp [startsList] at h
    | cons d ds =>
      simp only [startsList, Bool.and_eq_true, beq_iff_eq] at h
      obtain ⟨t, ht⟩ := ih h.2
      exact ⟨t, by simp [h.1, ht]⟩

theorem startsList_append_right {a b : List Char} (t : List Char)
    (h : startsList a b = true) : startsList a (b ++ t) = true := by
  obtain ⟨u, rfl⟩ := startsList_exists_append h
  rw [List.append_assoc]
  exact startsList_refl_append a (u ++ t)

theorem containsSub_of_startsList {n m : List Char} (h : startsList n m = true) :
    containsSub n m = true := by
  cases m with
  | nil => cases n with
    | nil => simp [containsSub]
    | cons c cs => simp [startsList] at h
  | cons c cs => simp [containsSub, h]

theorem containsSub_nil_left (m : List Char) : containsSub [] m = true := by
  induction m with
  | nil => simp [containsSub]
  | cons c cs ih => simp [containsSub, startsList]

theorem containsSub_append_right {n h : List Char} (t : List Char)
    (hc : containsSub n h = true) : containsSub n (h ++ t) = true := by
  induction h with
  | nil =>
    simp only [containsSub, List.isEmpty_iff] at hc
    subst hc
    simpa using containsSub_nil_left t
  | cons c cs ih =>
    simp only [containsSub, Bool.or_eq_true] at hc
    rcases hc with hc | hc
    · simp only [List.cons_append, containsSub, Bool.or_eq_true]
      exact Or.inl (startsList_append_right t hc)
    · simp only [List.cons_append, containsSub, Bool.or_eq_true]
      exact Or.inr (ih hc)

theorem containsSub_self_append (n s : List Char) : containsSub n (s ++ n) = true := by
  induction s with
  | nil => simpa using containsSub_of_startsList (startsList_refl n)
  | cons c cs ih =>
    simp only [List.cons_append, containsSub, Bool.or_eq_true]
    exact Or.inr ih

/-- The beginning-position test implies the whole-word test: if the
lowered name starts with the keyword followed by a space, then the
space-padded name contains the space-padded keyword. -/
theorem startsList_imp_padded {k pl : List Char}
    (h : startsList (k ++ [' ']) pl = true) :
    containsSub (' ' :: (k ++ [' '])) (' ' :: (pl ++ [' '])) = true := by
  obtain ⟨t, rfl⟩ := startsList_exists_append h
  have he : (' ' :: ((k ++ [' ']) ++ t ++ [' '])) =
      (' ' :: (k ++ [' '])) ++ (t ++ [' ']) := by simp
  rw [he]
  exact containsSub_append_right _ (containsSub_of_startsList (startsList_refl _))

/-! ## Helper lemmas about keyword weights and category scores -/

theorem keywordWeight_nonneg (pl k : List Char) : 0 ≤ keywordWeight pl k := by
  simp only [keywordWeight]
  split_ifs <;> positivity

theorem keywordWeight_pos_of_contains {pl k : List Char} (hk : k ≠ [])
    (h : containsSub k pl = true) : 0 < keywordWeight pl k := by
  have hL : 1 ≤ (k.length : ℚ) := by
    have := List.length_pos.2 hk
    exact_mod_cast this
  simp only [keywordWeight, h, if_true]
  split_ifs <;> nlinarith [hL]

theorem keywordWeight_even (pl k : List Char) : ∃ m : ℕ, keywordWeight pl k = 2 * m := by
  simp only [keywordWeight]
  by_cases h1 : containsSub k pl = true
  · simp only [h1, if_true]
    by_cases h3 : startsList (k ++ [' ']) pl = true
    · have h2 := startsList_imp_padded h3
      simp only [h2, h3, if_true]
      exact ⟨3 * k.length, by push_cast; ring⟩
    · simp only [h3, if_false]
      by_cases h2 : containsSub (' ' :: (k ++ [' '])) (' ' :: (pl ++ [' '])) = true
      · simp only [h2, if_true]
        exact ⟨2 * k.length, by push_cast; ring⟩
      · simp only [h2, if_false]
        exact ⟨k.length, by push_cast; ring⟩
  · simp only [h1, if_false]
    exact ⟨0, by norm_num⟩

theorem foldl_add_eq (f : List Char → ℚ) (l : List (List Char)) (a : ℚ) :
    l.foldl (fun s k => s + f k) a = a + (l.map f).sum := by
  induction l generalizing a with
  | nil => simp
  | cons x xs ih => simp [ih, add_assoc]

theorem categoryScore_eq_sum (kws0 : List (List Char)) (pl : List Char) :
    categoryScore kws0 pl = (kws0.map (keywordWeight pl)).sum := by
  simpa using foldl_add_eq (keywordWeight pl) kws0 0

theorem categoryScore_nonneg (kws0 : List (List Char)) (pl : List Char) :
    0 ≤ categoryScore kws0 pl := by
  rw [categoryScore_eq_sum]
  refine List.sum_nonneg ?_
  intro x hx
  obtain ⟨k, _, rfl⟩ := List.mem_map.1 hx
  exact keywordWeight_nonneg pl k

theorem categoryScore_even (kws0 : List (List Char)) (pl : List Char) :
    ∃ m : ℕ, categoryScore kws0 pl = 2 * m := by
  rw [categoryScore_eq_sum]
  induction kws0 with
  | nil => exact ⟨0, by simp⟩
  | cons k ks ih =>
    obtain ⟨m1, hm1⟩ := keywordWeight_even pl k
    obtain ⟨m2, hm2⟩ := ih
    exact ⟨m1 + m2, by simp only [List.map_cons, List.sum_cons, hm1, hm2]; push_cast; ring⟩

theorem categoryScore_zero_iff {kws0 : List (List Char)} {pl : List Char}
    (hk : ∀ k ∈ kws0, k ≠ []) :
    categoryScore kws0 pl = 0 ↔ ∀ k ∈ kws0, containsSub k pl = false := by
  rw [categoryScore_eq_sum]
  constructor
  · intro h0 k hk0
    have hnn : ∀ x ∈ kws0.map (keywordWeight pl), 0 ≤ x := by
      intro x hx
      obtain ⟨j, _, rfl⟩ := List.mem_map.1 hx
      exact keywordWeight_nonneg pl j
    have hz := List.all_zero_of_le_zero_le_of_sum_eq_zero hnn h0
      (List.mem_map_of_mem (keywordWeight pl) hk0)
    by_contra hcc
    have hcc' : containsSub k pl = true := by
      cases hcase : containsSub k pl
      · exact absurd hcase hcc
      · rfl
    exact absurd hz (ne_of_gt (keywordWeight_pos_of_contains (hk k hk0) hcc'))
  · intro hall
    have : kws0.map (keywordWeight pl) = kws0.map (fun _ => (0 : ℚ)) := by
      refine List.map_congr_left ?_
      intro k hk0
      simp [keywordWeight, hall k hk0]
    rw [this]
    simp

/-! ## Helper lemmas about the fold-based max and argmax -/

theorem le_foldl_max_init (l : List ℚ) (a : ℚ) : a ≤ l.foldl max a := by
  induction l generalizing a with
  | nil => simp
  | cons b bs ih => exact le_trans (le_max_left a b) (ih (max a b))

theorem le_foldl_max_mem {l : List ℚ} {x : ℚ} (hx : x ∈ l) (a : ℚ) :
    x ≤ l.foldl max a := by
  induction l generalizing a with
  | nil => cases hx
  | cons b bs ih =>
    rcases List.mem_cons.1 hx with rfl | hx'
    · exact le_trans (le_max_right a x) (le_foldl_max_init bs (max a x))
    · exact ih hx' (max a b)

theorem foldl_max_cases (l : List ℚ) (a : ℚ) :
    l.foldl max a = a ∨ l.foldl max a ∈ l := by
  induction l generalizing a with
  | nil => exact Or.inl rfl
  | cons b bs ih =>
    rcases ih (max a b) with h | h
    · rcases max_choice a b with hm | hm
      · exact Or.inl (by rw [List.foldl_cons, h, hm])
      · exact Or.inr (by rw [List.foldl_cons, h, hm]; exact List.mem_cons_self b bs)
    · exact Or.inr (List.mem_cons_of_mem b h)

theorem bestOf_snd (e : ProductCategory × ℚ) (rest : List (ProductCategory × ℚ)) :
    (bestOf e rest).2 = table_max e rest := by
  unfold bestOf table_max
  induction rest generalizing e with
  | nil => rfl
  | cons x xs ih =>
    simp only [List.foldl_cons, List.map_cons]
    have hstep : (if e.2 < x.2 then x else e).2 = max e.2 x.2 := by
      rcases lt_trichotomy e.2 x.2 with h | h | h
      · rw [if_pos h, max_eq_right (le_of_lt h)]
      · rw [if_neg (by rw [h]; exact lt_irrefl _), max_eq_right (le_of_eq h), h]
      · rw [if_neg (not_lt.2 (le_of_lt h)), max_eq_left (le_of_lt h)]
    rw [← hstep]
    exact ih (if e.2 < x.2 then x else e)

theorem bestOf_mem (e : ProductCategory × ℚ) (rest : List (ProductCategory × ℚ)) :
    bestOf e rest ∈ e :: rest := by
  unfold bestOf
  induction rest generalizing e with
  | nil => exact List.mem_cons_self e []
  | cons x xs ih =>
    simp only [List.foldl_cons]
    have := ih (if e.2 < x.2 then x else e)
    rcases List.mem_cons.1 this with h | h
    · rw [h]
      split_ifs
      · exact List.mem_cons_of_mem e (List.mem_cons_self x xs)
      · exact List.mem_cons_self e (x :: xs)
    · exact List.mem_cons_of_mem e (List.mem_cons_of_mem x h)

theorem table_max_ge {e x : ProductCategory × ℚ} {rest : List (ProductCategory × ℚ)}
    (hx : x ∈ e :: rest) : x.2 ≤ table_max e rest := by
  unfold table_max
  rcases List.mem_cons.1 hx with rfl | hx'
  · exact le_foldl_max_init _ _
  · exact le_foldl_max_mem (List.mem_map_of_mem Prod.snd hx') _

theorem table_max_attained (e : ProductCategory × ℚ) (rest : List (ProductCategory × ℚ)) :
    ∃ x ∈ e :: rest, x.2 = table_max e rest := by
  unfold table_max
  rcases foldl_max_cases (rest.map Prod.snd) e.2 with h | h
  · exact ⟨e, List.mem_cons_self e rest, h.symm⟩
  · obtain ⟨x, hx, hv⟩ := List.mem_map.1 h
    exact ⟨x, List.mem_cons_of_mem e hx, hv⟩

/-! ## Helper lemmas about classify_scores and the score table -/

theorem classify_scores_method (t : List (ProductCategory × ℚ)) :
    (classify_scores t).method = lc "rule_based" := by
  cases t with
  | nil => rfl
  | cons e rest =>
    simp only [classify_scores]
    split_ifs <;> rfl

theorem classify_product_method (pn : List Char) :
    (classify_product pn).method = lc "rule_based" :=
  classify_scores_method (score_table pn)

theorem mk_of_classify_product (pn : List Char) :
    ClassificationResult.mk (classify_product pn).category
      (classify_product pn).confidence (lc "rule_based") = classify_product pn := by
  rw [← classify_product_method pn]

theorem score_table_ne_nil (pn : List Char) : score_table pn ≠ [] := by
  simp [score_table, category_keywords]

theorem mem_score_table {pn : List Char} {x : ProductCategory × ℚ}
    (hx : x ∈ score_table pn) :
    ∃ p ∈ category_keywords, x = (p.1, categoryScore p.2 (product_lower_of pn)) := by
  obtain ⟨p, hp, rfl⟩ := List.mem_map.1 hx
  exact ⟨p, hp, rfl⟩

theorem score_table_mem_of_mem {pn : List Char} {p : ProductCategory × List (List Char)}
    (hp : p ∈ category_keywords) :
    (p.1, categoryScore p.2 (product_lower_of pn)) ∈ score_table pn :=
  List.mem_map_of_mem _ hp

theorem confidence_for_ne_zero (x : ℚ) : confidence_for x ≠ 0 := by
  unfold confidence_for
  split_ifs <;> norm_num

theorem confidence_for_mem (x : ℚ) :
    confidence_for x ∈ ([0, 0.3, 0.5, 0.7, 0.85, 0.95] : List ℚ) := by
  unfold confidence_for
  split_ifs <;> simp only [List.mem_cons, List.not_mem_nil, or_false] <;> norm_num

/-- All keywords in the taxonomy table are nonempty strings. -/
theorem category_keywords_nonempty :
    ∀ p ∈ category_keywords, ∀ k ∈ p.2, k ≠ [] := by decide

/-- Every category in the taxonomy table is a member of the enumeration. -/
theorem category_keywords_sub_all :
    ∀ p ∈ category_keywords, p.1 ∈ allCategories := by decide

/-! ## Claim-shaped score description (spec §4.9) -/

/-- The per-keyword weight as the specification words it: base
length(keyword)*2, doubled on a whole-word occurrence in the
space-padded name, and additionally multiplied by 1.5 when the name
starts with the keyword followed by a space. -/
def specWeight (pl k : List Char) : ℚ :=
  ((k.length : ℚ) * 2)
    * (if containsSub (' ' :: (k ++ [' '])) (' ' :: (pl ++ [' '])) then 2 else 1)
    * (if startsList (k ++ [' ']) pl then 1.5 else 1)

/-- The category score as the specification words it: the sum of
specWeight over the keywords occurring as substrings of the name. -/
def specScore (kws0 : List (List Char)) (pl : List Char) : ℚ :=
  ((kws0.filter (fun k => containsSub k pl)).map (specWeight pl)).sum

theorem keywordWeight_eq_spec (pl k : List Char) :
    keywordWeight pl k = if containsSub k pl then specWeight pl k else 0 := by
  simp only [keywordWeight, specWeight]
  by_cases h1 : containsSub k pl = true
  · simp only [h1, if_true]
    split_ifs <;> ring
  · simp [h1]

theorem sum_map_ite (p : List Char → Bool) (f : List Char → ℚ) (l : List (List Char)) :
    (l.map (fun k => if p k then f k else 0)).sum = ((l.filter p).map f).sum := by
  induction l with
  | nil => simp
  | cons x xs ih =>
    by_cases hx : p x
    · simp [List.filter_cons, hx, ih]
    · simp [List.filter_cons, hx, ih]

theorem categoryScore_eq_specScore (kws0 : List (List Char)) (pl : List Char) :
    categoryScore kws0 pl = specScore kws0 pl := by
  rw [categoryScore_eq_sum, specScore]
  rw [List.map_congr_left (fun k _ => keywordWeight_eq_spec pl k)]
  exact sum_map_ite _ _ kws0

/-! ## Monotonicity of keyword weights under appending (for claim C9) -/

theorem containsSub_padded_append (k pl x : List Char)
    (h : containsSub (' ' :: (k ++ [' '])) (' ' :: (pl ++ [' '])) = true) :
    containsSub (' ' :: (k ++ [' '])) (' ' :: ((pl ++ ' ' :: x) ++ [' '])) = true := by
  have he : (' ' :: ((pl ++ ' ' :: x) ++ [' '])) =
      (' ' :: (pl ++ [' '])) ++ (x ++ [' ']) := by simp
  rw [he]
  exact containsSub_append_right _ h

theorem keywordWeight_le_append (pl x k : List Char) :
    keywordWeight pl k ≤ keywordWeight (pl ++ ' ' :: x) k := by
  by_cases hc : containsSub k pl = true
  · have hc' : containsSub k (pl ++ ' ' :: x) = true := containsSub_append_right _ hc
    have hL : (0 : ℚ) ≤ (k.length : ℚ) := by positivity
    simp only [keywordWeight, hc, hc', if_true]
    by_cases hw : containsSub (' ' :: (k ++ [' '])) (' ' :: (pl ++ [' '])) = true
    · have hw' := containsSub_padded_append k pl x hw
      simp only [hw, hw', if_true]
      by_cases hs : startsList (k ++ [' ']) pl = true
      · have hs' : startsList (k ++ [' ']) (pl ++ ' ' :: x) = true :=
          startsList_append_right _ hs
        simp only [hs, hs', if_true]
        exact le_refl _
      · simp only [hs, Bool.false_eq_true, if_false]
        by_cases hs' : startsList (k ++ [' ']) (pl ++ ' ' :: x) = true
        · simp only [hs', if_true]; nlinarith
        · simp only [hs', Bool.false_eq_true, if_false]; exact le_refl _
    · simp only [hw, if_false]
      have hsold : startsList (k ++ [' ']) pl = false := by
        cases hcase : startsList (k ++ [' ']) pl
        · rfl
        · exact absurd (startsList_imp_padded hcase) hw
      simp only [hsold, if_false, Bool.false_eq_true]
      by_cases hw' : containsSub (' ' :: (k ++ [' '])) (' ' :: ((pl ++ ' ' :: x) ++ [' '])) = true
      · simp only [hw', if_true]
        split_ifs <;> nlinarith
      · simp only [hw', if_false]
        split_ifs <;> nlinarith
  · have h0 : keywordWeight pl k = 0 := by
      simp [keywordWeight, hc]
    rw [h0]
    exact keywordWeight_nonneg _ _

theorem categoryScore_le_append (kws0 : List (List Char)) (pl x : List Char) :
    categoryScore kws0 pl ≤ categoryScore kws0 (pl ++ ' ' :: x) := by
  rw [categoryScore_eq_sum, categoryScore_eq_sum]
  exact List.sum_le_sum (fun k _ => keywordWeight_le_append pl x k)

/-! ## Claim C4: unit extraction phase order -/

/-- Claim C4: unit extraction checks the fixed compound-unit phrases
first (word-bounded, case-insensitive) and returns the matched phrase
trimmed when one is present, so a compound phrase wins over the generic
numeric+unit pattern (extract("Fresh Thermo Box Apple 2kg") yields
"thermo box", not "2kg"); the numeric+unit pattern is tried only when no
compound phrase matches, and when neither matches the literal default
"1 piece" is returned. -/
theorem unit_extraction_compound_precedence (name : List Char) :
    (∀ m, findBounded COMPOUND_UNITS (toLowerList name) = some m →
       extract_unit name = pyStrip m) ∧
    (findBounded COMPOUND_UNITS (toLowerList name) = none →
       findUnitPattern get_unit_alternation (toLowerList name) = none →
       extract_unit name = lc "1 piece") ∧
    extract_unit (lc "Fresh Thermo Box Apple 2kg") = lc "thermo box" := by
  refine ⟨?_, ?_, ?_⟩
  · intro m hm
    simp [extract_unit, hm]
  · intro h1 h2
    simp [extract_unit, h1, h2]
  · with_unfolding_all rfl

/-- Witness for C4 at a concrete input: on "Thermo Box" the compound
phrase search succeeds and the extractor returns it. -/
theorem unit_extraction_compound_precedence_witness :
    extract_unit (lc "Thermo Box") = pyStrip (lc "thermo box") :=
  (unit_extraction_compound_precedence (lc "Thermo Box")).1 (lc "thermo box")
    (by with_unfolding_all rfl)

/-! ## Claim C5: price parsing -/

theorem pyFloatOfDigits_nonneg {s : List Char} {v : ℚ}
    (h : pyFloatOfDigits s = some v) : 0 ≤ v := by
  unfold pyFloatOfDigits at h
  by_cases hall : s.all (fun c => c.isDigit || c == '.') = true
  · rw [if_pos hall] at h
    rcases hsp : splitOnDot s with _ | ⟨ip, _ | ⟨fp, _ | ⟨c, rest3⟩⟩⟩ <;> rw [hsp] at h
    · simp at h
    · by_cases hemp : ip.isEmpty = true
      · simp [hemp] at h
      · simp only [hemp, Bool.false_eq_true, if_false] at h
        obtain rfl := (Option.some.inj h).symm
        positivity
    · by_cases hemp : (ip.isEmpty && fp.isEmpty) = true
      · simp only [hemp, if_true] at h
        exact absurd h (by simp)
      · simp only [hemp, Bool.false_eq_true, if_false] at h
        obtain rfl := (Option.some.inj h).symm
        positivity
    · simp at h
  · rw [if_neg hall] at h
    simp at h

/-- Claim C5: the price parser strips every character that is not a
digit, dot or comma, replaces commas with dots and parses the result;
on any parse failure it returns 0.0 and never raises, so the returned
price is always non-negative. -/
theorem price_parser_total_nonneg (price_str : List Char) :
    0 ≤ extract_price price_str ∧
    (pyFloatOfDigits (price_cleaned price_str) = none → extract_price price_str = 0) ∧
    (∀ v, pyFloatOfDigits (price_cleaned price_str) = some v →
       extract_price price_str = v) := by
  refine ⟨?_, ?_, ?_⟩
  · unfold extract_price
    rcases hp : pyFloatOfDigits (price_cleaned price_str) with _ | v
    · simp
    · simpa using pyFloatOfDigits_nonneg hp
  · intro h
    unfold extract_price
    rw [h]
  · intro v h
    unfold extract_price
    rw [h]

/-- Witness for C5 at a concrete input: "SAR 3,50" cleans to "3.50" and
parses to 3.5; the returned price is non-negative. -/
theorem price_parser_total_nonneg_witness :
    0 ≤ extract_price (lc "SAR 3,50") ∧ extract_price (lc "SAR 3,50") = 3.5 :=
  ⟨(price_parser_total_nonneg (lc "SAR 3,50")).1,
   (price_parser_total_nonneg (lc "SAR 3,50")).2.2 3.5 (by with_unfolding_all rfl)⟩

/-! ## Claim C2: hybrid extraction falls back to the regex engine -/

/-- Claim C2: for a record whose name is flagged complex, if the
generative extraction call fails with any exception the hybrid extractor
produces exactly the record the deterministic regex engine alone would
produce (the pipeline then fills the classification fields of that same
record). -/
theorem hybrid_extraction_fallback_eq_regex (raw : RawData)
    (llm_response : List Char → Except Unit (List Char))
    (h : is_complex_product_name raw.name = true) :
    extract_with_llm (fun _ => Except.error ()) raw = extract_with_regex raw ∧
    extract_product_data true (fun _ => Except.error ()) llm_response raw =
      { extract_with_regex raw with
          Category := some (hybrid_classify_product true llm_response
            (extract_with_regex raw).ProductName).category,
          Confidence := some (hybrid_classify_product true llm_response
            (extract_with_regex raw).ProductName).confidence,
          ClassificationMethod := some (hybrid_classify_product true llm_response
            (extract_with_regex raw).ProductName).method } := by
  constructor
  · rfl
  · simp [extract_product_data, extract_with_llm, h]

/-- Witness for C2 at a concrete input: "Organic Apple" is flagged
complex (it contains the complexity keyword "organic"), and the hybrid
extractor with an always-failing generative call agrees with the regex
engine. -/
theorem hybrid_extraction_fallback_eq_regex_witness :
    is_complex_product_name (lc "Organic Apple") = true ∧
    extract_with_llm (fun _ => Except.error ())
        (RawData.mk (lc "Organic Apple") (lc "5") (lc "SupplierX")) =
      extract_with_regex (RawData.mk (lc "Organic Apple") (lc "5") (lc "SupplierX")) :=
  ⟨by with_unfolding_all rfl,
   (hybrid_extraction_fallback_eq_regex
      (RawData.mk (lc "Organic Apple") (lc "5") (lc "SupplierX"))
      (fun _ => Except.error ()) (by with_unfolding_all rfl)).1⟩

/-! ## Claim C3: hybrid classifier gating and fallback -/

/-- Claim C3: the hybrid classifier returns the rule-based result
unchanged whenever the rule-based confidence is strictly greater than
0.85; otherwise, when the generative capability is available, a
generative label mapping to a taxonomy entry is returned with
confidence 0.90 and method "llm", an unmapped label yields Other with
confidence 0.50 and method "llm", and a generative call failure yields
the original rule-based result. -/
theorem hybrid_classifier_gating (pn : List Char) (avail : Bool)
    (resp : List Char → Except Unit (List Char)) :
    ((classify_product pn).confidence > 0.85 →
       hybrid_classify_product avail resp pn = classify_product pn) ∧
    ((classify_product pn).confidence ≤ 0.85 → avail = true →
       ((resp pn = Except.error () →
           hybrid_classify_product avail resp pn = classify_product pn) ∧
        (∀ lbl c, resp pn = Except.ok lbl → parse_category (pyStrip lbl) = some c →
           hybrid_classify_product avail resp pn =
             ClassificationResult.mk c.value 0.9 (lc "llm")) ∧
        (∀ lbl, resp pn = Except.ok lbl → parse_category (pyStrip lbl) = none →
           hybrid_classify_product avail resp pn =
             ClassificationResult.mk (lc "Other") 0.5 (lc "llm")))) := by
  constructor
  · intro hgt
    simp only [hybrid_classify_product]
    rw [if_pos hgt]
    exact mk_of_classify_product pn
  · intro hle havail
    subst havail
    refine ⟨?_, ?_, ?_⟩
    · intro herr
      simp only [hybrid_classify_product, herr, classify_with_llm]
      rw [if_neg (not_lt.2 hle), if_pos (by simp [hle])]
      exact mk_of_classify_product pn
    · intro lbl c hok hcat
      simp only [hybrid_classify_product, hok, classify_with_llm, hcat]
      rw [if_neg (not_lt.2 hle), if_pos (by simp [hle])]
    · intro lbl hok hcat
      simp only [hybrid_classify_product, hok, classify_with_llm, hcat]
      rw [if_neg (not_lt.2 hle), if_pos (by simp [hle])]

/-- Witness for C3 at a concrete input: "apple x" scores 30 for Fruits
(confidence 0.95 > 0.85), so the hybrid classifier returns the
rule-based result unchanged even with the capability disabled. -/
theorem hybrid_classifier_gating_witness :
    hybrid_classify_product false (fun _ => Except.error ()) (lc "apple x") =
      classify_product (lc "apple x") :=
  (hybrid_classifier_gating (lc "apple x") false (fun _ => Except.error ())).1
    (by with_unfolding_all decide)

/-! ## Claim C6: name-cleaner fallback -/

theorem find?_ext {α : Type} (p q : α → Bool) (l : List α) (h : ∀ a, p a = q a) :
    l.find? p = l.find? q := by
  induction l with
  | nil => rfl
  | cons a as ih =>
    rw [List.find?_cons, List.find?_cons, h a]
    cases q a
    · exact ih
    · rfl

/-- The salvage-scan acceptance test, as the specification words it: the
word's lowercase form, stripped of non-word characters, is longer than 2
characters and is not a member of the unit-keyword, descriptive-word or
country sets. -/
def salvage_pred (w : List Char) : Bool :=
  let wc := (toLowerList w).filter isWordChar
  decide (2 < wc.length) &&
    !(decide (wc ∈ UNIT_KEYWORDS ∨ wc ∈ DESCRIPTIVE_WORDS ∨ wc ∈ COUNTRIES))

/-- The fallback of the claim, word for word: scan the original name's
words from the end backwards and return the first acceptable word; if no
such word exists, return the original name unmodified. -/
def spec_salvage (name : List Char) : List Char :=
  match (pySplit name).reverse.find? salvage_pred with
  | some w => w
  | none => name

/-- The fallback the code actually implements, which differs from
spec_salvage only in its last resort: the original name is stripped of
surrounding whitespace. -/
def spec_salvage_stripped (name : List Char) : List Char :=
  match (pySplit name).reverse.find? salvage_pred with
  | some w => w
  | none => pyStrip name

theorem extract_core_eq_salvage (name : List Char) :
    extract_core_product_word name = spec_salvage_stripped name := by
  simp only [extract_core_product_word, spec_salvage_stripped]
  have hfind :
      (pySplit name).reverse.find? (fun w =>
        let word_clean := (toLowerList w).filter isWordChar
        decide (2 < word_clean.length) &&
          !((UNIT_KEYWORDS ++ DESCRIPTIVE_WORDS ++ COUNTRIES).contains word_clean)) =
      (pySplit name).reverse.find? salvage_pred := by
    refine find?_ext _ _ _ ?_
    intro w
    simp [salvage_pred, List.mem_append, or_assoc]
  rw [hfind]

/-- Counterexample to C6 as stated: on the name "x " (cleaned result
"x", length 1 < 2) the fallback scan finds no acceptable word and the
cleaner returns "x" — the stripped name — not the original name "x "
unmodified. -/
theorem name_cleaner_fallback_counterexample :
    (cleaned_core (lc "x ") none none).length < 2 ∧
    clean_product_name (lc "x ") none none ≠ spec_salvage (lc "x ") := by
  constructor
  · with_unfolding_all decide
  · with_unfolding_all decide

/-- Claim C6 (amended): for every name whose cleaned result has fewer
than 2 characters, the cleaner discards the cleaned result and scans the
original name's words from the end backwards, returning the first word
whose lowercase form, after stripping non-word characters, has length
greater than 2 and is not a unit keyword, descriptive word or country;
if no such word exists it returns the original name STRIPPED OF
SURROUNDING WHITESPACE (the code applies str.strip, so a name with edge
whitespace is not returned verbatim). -/
theorem name_cleaner_fallback_amended (name : List Char)
    (origin unit : Option (List Char))
    (h : (cleaned_core name origin unit).length < 2) :
    clean_product_name name origin unit = spec_salvage_stripped name := by
  unfold clean_product_name
  rw [if_pos h]
  exact extract_core_eq_salvage name

/-- Witness for the amended C6 at the specification's own example: all
three words of "Organic Premium Fresh" are descriptive, cleaning erases
everything, the backwards scan rejects every word, and the (already
stripped) original name is returned. -/
theorem name_cleaner_fallback_amended_witness :
    clean_product_name (lc "Organic Premium Fresh") none none =
      spec_salvage_stripped (lc "Organic Premium Fresh") :=
  name_cleaner_fallback_amended (lc "Organic Premium Fresh") none none
    (by with_unfolding_all decide)

/-! ## Claim C7: end-to-end scenario -/

/-- The raw record of the end-to-end scenario. -/
def raw_scenario : RawData :=
  RawData.mk (lc "Farm Fresh Bunch Tomato 500g") (lc "3.50") (lc "SupplierA")

/-- The pipeline output for the scenario with the generative capability
disabled (the stubbed generative calls are unreachable). -/
def pipeline_scenario_output : Product :=
  extract_product_data false (fun _ => Except.error ()) (fun _ => Except.error ())
    raw_scenario

/-- Counterexample to C7 as stated: the pipeline does not produce
product_name "Tomato" for this record.  "Bunch" is a unit keyword, not a
descriptive word, and the unit extractor only removes the matched
numeric unit "500g", so "Bunch" survives cleaning. -/
theorem pipeline_scenario_counterexample :
    pipeline_scenario_output.ProductName ≠ lc "Tomato" := by
  with_unfolding_all decide

/-- Claim C7 (amended): for the scenario record with the generative
capability disabled, the pipeline outputs product_name "Bunch Tomato"
(not "Tomato"), a unit containing "500g", no origin, price 3.50,
category "Vegetables" and classification method "rule_based". -/
theorem pipeline_scenario_amended :
    pipeline_scenario_output.ProductName = lc "Bunch Tomato" ∧
    containsSub (lc "500g") pipeline_scenario_output.Unit = true ∧
    pipeline_scenario_output.Origin = none ∧
    pipeline_scenario_output.Price = 3.5 ∧
    pipeline_scenario_output.Category = some (lc "Vegetables") ∧
    pipeline_scenario_output.ClassificationMethod = some (lc "rule_based") := by
  with_unfolding_all decide

/-! ## Claim C9: score monotonicity -/

/-- Counterexample to C9 as stated: prepending the Fruits keyword "fig"
to "watermelon fig" makes strictly more keyword occurrences match but
strictly lowers the Fruits score (72 to 58): "watermelon" loses its
beginning-position 1.5x bonus. -/
theorem score_monotonicity_counterexample :
    lc "fig watermelon fig" = lc "fig " ++ lc "watermelon fig" ∧
    lc "fig" ∈ FRUITS_KEYWORDS ∧
    categoryScore FRUITS_KEYWORDS (lc "fig watermelon fig") <
      categoryScore FRUITS_KEYWORDS (lc "watermelon fig") := by
  refine ⟨by decide, by decide, by with_unfolding_all decide⟩

theorem keywordWeight_ge_base {pl k : List Char} (h : containsSub k pl = true) :
    (k.length : ℚ) * 2 ≤ keywordWeight pl k := by
  have hL : (0 : ℚ) ≤ (k.length : ℚ) := by positivity
  simp only [keywordWeight, h, if_true]
  split_ifs <;> nlinarith

/-- Claim C9 (amended): appending a space followed by one of the
category's keywords to the (lowercased, stripped) name never decreases
that category's score; the appended keyword then occurs in the name and
contributes at least length(keyword)*2 to the score.  (The claim as
stated fails when keywords are added in front of the name, because an
existing keyword can lose its beginning-position bonus.) -/
theorem score_monotonicity_amended (kws0 : List (List Char)) (pl k : List Char)
    (h : k ∈ kws0) :
    categoryScore kws0 pl ≤ categoryScore kws0 (pl ++ ' ' :: k) ∧
    containsSub k (pl ++ ' ' :: k) = true ∧
    (k.length : ℚ) * 2 ≤ categoryScore kws0 (pl ++ ' ' :: k) := by
  have hcon : containsSub k (pl ++ ' ' :: k) = true := by
    have he : pl ++ ' ' :: k = (pl ++ [' ']) ++ k := by simp
    rw [he]
    exact containsSub_self_append k (pl ++ [' '])
  refine ⟨categoryScore_le_append kws0 pl k, hcon, ?_⟩
  have h1 : (k.length : ℚ) * 2 ≤ keywordWeight (pl ++ ' ' :: k) k :=
    keywordWeight_ge_base hcon
  have h2 : keywordWeight (pl ++ ' ' :: k) k ≤ categoryScore kws0 (pl ++ ' ' :: k) := by
    rw [categoryScore_eq_sum]
    refine List.single_le_sum ?_ _ (List.mem_map_of_mem _ h)
    intro x hx
    obtain ⟨j, _, rfl⟩ := List.mem_map.1 hx
    exact keywordWeight_nonneg _ _
  exact le_trans h1 h2

/-- Witness for the amended C9 at a concrete input: appending " fig" to
"watermelon" raises the Fruits score (60 to 72). -/
theorem score_monotonicity_amended_witness :
    categoryScore FRUITS_KEYWORDS (lc "watermelon") ≤
      categoryScore FRUITS_KEYWORDS (lc "watermelon" ++ ' ' :: lc "fig") ∧
    containsSub (lc "fig") (lc "watermelon" ++ ' ' :: lc "fig") = true ∧
    ((lc "fig").length : ℚ) * 2 ≤
      categoryScore FRUITS_KEYWORDS (lc "watermelon" ++ ' ' :: lc "fig") :=
  score_monotonicity_amended FRUITS_KEYWORDS (lc "watermelon") (lc "fig") (by decide)

/-! ## Claim C1: characterization of the rule-based classifier -/

/-- Claim C1: each category's score is the sum, over its keywords
occurring as substrings of the lowercased trimmed name, of
length(keyword)*2, doubled on a whole-word occurrence in the
space-padded name and additionally multiplied by 1.5 when the name
starts with the keyword followed by a space (specScore); the classifier
returns a maximum-scoring category with method "rule_based", returning
category Other with confidence 0.0 when every category's score is zero,
and otherwise the winning score's thresholded confidence
(0.95 / 0.85 / 0.70 / 0.50 / 0.30 at cutoffs 30 / 20 / 10 / 5). -/
theorem rule_based_classifier_characterization (pn : List Char) :
    (classify_product pn).method = lc "rule_based" ∧
    ((∀ p ∈ category_keywords, specScore p.2 (product_lower_of pn) = 0) →
       classify_product pn = ClassificationResult.mk (lc "Other") 0 (lc "rule_based")) ∧
    ((∃ p ∈ category_keywords, specScore p.2 (product_lower_of pn) ≠ 0) →
       ∃ p ∈ category_keywords,
         classify_product pn =
           ClassificationResult.mk p.1.value
             (confidence_for (specScore p.2 (product_lower_of pn))) (lc "rule_based") ∧
         (∀ q ∈ category_keywords,
            specScore q.2 (product_lower_of pn) ≤ specScore p.2 (product_lower_of pn))) := by
  rcases hst : score_table pn with _ | ⟨e, rest⟩
  · exact absurd hst (score_table_ne_nil pn)
  have hcp : classify_product pn = classify_scores (e :: rest) := by
    rw [show classify_product pn = classify_scores (score_table pn) from rfl, hst]
  refine ⟨classify_product_method pn, ?_, ?_⟩
  · intro hall
    have hzero : ∀ x ∈ e :: rest, x.2 = 0 := by
      intro x hx
      rw [← hst] at hx
      obtain ⟨p, hp, rfl⟩ := mem_score_table hx
      rw [show (p.1, categoryScore p.2 (product_lower_of pn)).2 =
        categoryScore p.2 (product_lower_of pn) from rfl]
      rw [categoryScore_eq_specScore]
      exact hall p hp
    have hmax : table_max e rest = 0 := by
      obtain ⟨x, hx, hv⟩ := table_max_attained e rest
      rw [← hv]
      exact hzero x hx
    rw [hcp]
    simp [classify_scores, hmax]
  · rintro ⟨p0, hp0, hne⟩
    have hmaxpos : table_max e rest ≠ 0 := by
      have hmem : (p0.1, categoryScore p0.2 (product_lower_of pn)) ∈ e :: rest := by
        rw [← hst]
        exact score_table_mem_of_mem hp0
      have hle := table_max_ge hmem
      have hpos : 0 < categoryScore p0.2 (product_lower_of pn) := by
        refine lt_of_le_of_ne (categoryScore_nonneg _ _) ?_
        rw [categoryScore_eq_specScore]
        exact Ne.symm hne
      exact ne_of_gt (lt_of_lt_of_le hpos hle)
    have hbest_mem : bestOf e rest ∈ score_table pn := by
      rw [hst]
      exact bestOf_mem e rest
    obtain ⟨p, hp, hpe⟩ := mem_score_table hbest_mem
    refine ⟨p, hp, ?_, ?_⟩
    · rw [hcp]
      simp only [classify_scores]
      rw [if_neg hmaxpos, hpe]
      rw [show ((p.1, categoryScore p.2 (product_lower_of pn)) : ProductCategory × ℚ).2 =
        categoryScore p.2 (product_lower_of pn) from rfl]
      rw [categoryScore_eq_specScore]
    · intro q hq
      have hqmem : (q.1, categoryScore q.2 (product_lower_of pn)) ∈ e :: rest := by
        rw [← hst]
        exact score_table_mem_of_mem hq
      have h1 := table_max_ge hqmem
      have h2 := bestOf_snd e rest
      rw [hpe] at h2
      rw [show ((p.1, categoryScore p.2 (product_lower_of pn)) : ProductCategory × ℚ).2 =
        categoryScore p.2 (product_lower_of pn) from rfl] at h2
      rw [← categoryScore_eq_specScore, ← categoryScore_eq_specScore]
      rw [h2]
      exact h1

/-- Witness for C1 at a concrete input: "apple x" has a nonzero Fruits
score, so the classifier returns a maximum-scoring category with its
thresholded confidence. -/
theorem rule_based_classifier_characterization_witness :
    (∃ p ∈ category_keywords, specScore p.2 (product_lower_of (lc "apple x")) ≠ 0) ∧
    (∃ p ∈ category_keywords,
       classify_product (lc "apple x") =
         ClassificationResult.mk p.1.value
           (confidence_for (specScore p.2 (product_lower_of (lc "apple x"))))
           (lc "rule_based") ∧
       (∀ q ∈ category_keywords,
          specScore q.2 (product_lower_of (lc "apple x")) ≤
            specScore p.2 (product_lower_of (lc "apple x")))) := by
  have hex : ∃ p ∈ category_keywords,
      specScore p.2 (product_lower_of (lc "apple x")) ≠ 0 :=
    ⟨(ProductCategory.FRUITS, FRUITS_KEYWORDS), List.mem_cons_self _ _,
      by with_unfolding_all decide⟩
  exact ⟨hex, (rule_based_classifier_characterization (lc "apple x")).2.2 hex⟩

/-! ## Claim C8: exact confidence threshold boundaries -/

/-- Claim C8: a name whose winning score is exactly 30 gets confidence
0.95, and a name whose winning score is exactly 29 gets confidence 0.70
or lower.  The second half is vacuous: every keyword weight is an even
integer (the 1.5x beginning bonus always stacks on the whole-word
doubling), so a winning score of 29 is unreachable — which the theorem
records explicitly.  (If 29 were reachable, the code's own table would
assign it 0.85, contradicting the 0.70 bound.) -/
theorem confidence_threshold_boundaries (pn : List Char) :
    winning_score pn ≠ 29 ∧
    (winning_score pn = 30 → (classify_product pn).confidence = 0.95) ∧
    (winning_score pn = 29 → (classify_product pn).confidence ≤ 0.7) := by
  rcases hst : score_table pn with _ | ⟨e, rest⟩
  · exact absurd hst (score_table_ne_nil pn)
  have hws : winning_score pn = table_max e rest := by
    rw [show winning_score pn =
      (match score_table pn with
       | [] => (0 : ℚ)
       | e :: rest => table_max e rest) from rfl, hst]
  have hne29 : winning_score pn ≠ 29 := by
    rw [hws]
    obtain ⟨x, hx, hv⟩ := table_max_attained e rest
    rw [← hv]
    rw [← hst] at hx
    obtain ⟨p, hp, rfl⟩ := mem_score_table hx
    obtain ⟨m, hm⟩ := categoryScore_even p.2 (product_lower_of pn)
    rw [show ((p.1, categoryScore p.2 (product_lower_of pn)) : ProductCategory × ℚ).2 =
      categoryScore p.2 (product_lower_of pn) from rfl, hm]
    intro hcontra
    have hcast : ((2 * m : ℕ) : ℚ) = ((29 : ℕ) : ℚ) := by push_cast; linarith
    have h29 : 2 * m = 29 := Nat.cast_injective hcast
    omega
  refine ⟨hne29, ?_, ?_⟩
  · intro h30
    have hmax : table_max e rest = 30 := by rw [← hws]; exact h30
    have hcp : classify_product pn = classify_scores (e :: rest) := by
      rw [show classify_product pn = classify_scores (score_table pn) from rfl, hst]
    rw [hcp]
    simp only [classify_scores]
    rw [if_neg (by rw [hmax]; norm_num)]
    dsimp only
    rw [bestOf_snd, hmax]
    unfold confidence_for
    rw [if_pos (by norm_num)]
  · intro h29
    exact absurd h29 hne29

/-- Witness for C8 at a concrete input: "apple x" scores exactly 30
(6 * length "apple": whole word at the beginning) and gets confidence
0.95. -/
theorem confidence_threshold_boundaries_witness :
    winning_score (lc "apple x") = 30 ∧
    (classify_product (lc "apple x")).confidence = 0.95 :=
  ⟨by with_unfolding_all rfl,
   (confidence_threshold_boundaries (lc "apple x")).2.1 (by with_unfolding_all rfl)⟩

/-! ## Claim C10: invariants of the rule-based classification result -/

/-- Claim C10: the rule-based result always has method "rule_based", a
category among the 16 taxonomy labels, and a confidence in
{0, 0.3, 0.5, 0.7, 0.85, 0.95}; confidence 0.0 occurs exactly when no
category keyword is a substring of the processed name, and then the
category is Other. -/
theorem classifier_result_invariants (pn : List Char) :
    (classify_product pn).method = lc "rule_based" ∧
    (classify_product pn).category ∈ allCategories.map ProductCategory.value ∧
    (classify_product pn).confidence ∈ ([0, 0.3, 0.5, 0.7, 0.85, 0.95] : List ℚ) ∧
    ((classify_product pn).confidence = 0 ↔
       ∀ p ∈ category_keywords, ∀ k ∈ p.2,
         containsSub k (product_lower_of pn) = false) ∧
    ((classify_product pn).confidence = 0 →
       (classify_product pn).category = lc "Other") := by
  rcases hst : score_table pn with _ | ⟨e, rest⟩
  · exact absurd hst (score_table_ne_nil pn)
  have hcp : classify_product pn = classify_scores (e :: rest) := by
    rw [show classify_product pn = classify_scores (score_table pn) from rfl, hst]
  have hscore_le : ∀ p ∈ category_keywords,
      categoryScore p.2 (product_lower_of pn) ≤ table_max e rest := by
    intro p hp
    have hmem : (p.1, categoryScore p.2 (product_lower_of pn)) ∈ e :: rest := by
      rw [← hst]
      exact score_table_mem_of_mem hp
    exact table_max_ge hmem
  by_cases hmax : table_max e rest = 0
  · have hr : classify_product pn =
        ClassificationResult.mk (lc "Other") 0 (lc "rule_based") := by
      rw [hcp]
      simp [classify_scores, hmax]
    have hnomatch : ∀ p ∈ category_keywords, ∀ k ∈ p.2,
        containsSub k (product_lower_of pn) = false := by
      intro p hp
      have hzero : categoryScore p.2 (product_lower_of pn) = 0 :=
        le_antisymm (by rw [← hmax]; exact hscore_le p hp) (categoryScore_nonneg _ _)
      exact (categoryScore_zero_iff (category_keywords_nonempty p hp)).1 hzero
    refine ⟨by rw [hr], by rw [hr]; decide, by rw [hr]; exact List.mem_cons_self _ _,
      Iff.intro (fun _ => hnomatch) (fun _ => by rw [hr]), fun _ => by rw [hr]⟩
  · have hr : classify_product pn =
        ClassificationResult.mk (bestOf e rest).1.value
          (confidence_for (bestOf e rest).2) (lc "rule_based") := by
      rw [hcp]
      simp [classify_scores, hmax]
    have hconf_ne : (classify_product pn).confidence ≠ 0 := by
      rw [hr]
      exact confidence_for_ne_zero _
    have hnot_all : ¬ (∀ p ∈ category_keywords, ∀ k ∈ p.2,
        containsSub k (product_lower_of pn) = false) := by
      intro hall
      apply hmax
      obtain ⟨x, hx, hv⟩ := table_max_attained e rest
      rw [← hv]
      rw [← hst] at hx
      obtain ⟨p, hp, rfl⟩ := mem_score_table hx
      rw [show ((p.1, categoryScore p.2 (product_lower_of pn)) : ProductCategory × ℚ).2 =
        categoryScore p.2 (product_lower_of pn) from rfl]
      exact (categoryScore_zero_iff (category_keywords_nonempty p hp)).2 (hall p hp)
    have hcatmem : (classify_product pn).category ∈ allCategories.map ProductCategory.value := by
      rw [hr]
      have hbest_mem : bestOf e rest ∈ score_table pn := by
        rw [hst]
        exact bestOf_mem e rest
      obtain ⟨p, hp, hpe⟩ := mem_score_table hbest_mem
      rw [hpe]
      exact List.mem_map_of_mem ProductCategory.value (category_keywords_sub_all p hp)
    refine ⟨by rw [hr], hcatmem, by rw [hr]; exact confidence_for_mem _,
      Iff.intro (fun hz => absurd hz hconf_ne) (fun hall => absurd hall hnot_all),
      fun hz => absurd hz hconf_ne⟩

/-- Witness for C10 at a concrete input: "zzz" matches no keyword, gets
confidence 0, and is classified Other. -/
theorem classifier_result_invariants_witness :
    (classify_product (lc "zzz")).category = lc "Other" :=
  (classifier_result_invariants (lc "zzz")).2.2.2.2 (by with_unfolding_all rfl)

end NabtApp
